import Mathlib

/-!
Verification of the phone-number extraction and classification engine of
`src/epac/pages/epac_ficha_peritacion_page.py` (class `EpacFichaPeritacionPage`).

Strings are embedded as `List Char`.  Python's regular expressions are
specialised to the three concrete patterns the source compiles
(`PHONE_CANDIDATE_RE`, the three `CUT_PATTERNS`, and the `TELEF-n` field
pattern); each is translated into an explicit scanner that realises the
leftmost-match, greedy-with-backtracking semantics of `re` for that pattern.
Python's `\s` / `str.strip` whitespace is modelled by the ASCII whitespace
characters plus the no-break space (the only non-ASCII whitespace the source
mentions); `\d` is modelled by the ASCII decimal digits.
-/

/-- ASCII decimal digit, the model of the regex class `\d` and of
Python's `re.sub(r"\D", "", s)` keep-set. -/
def isDigitC (c : Char) : Bool := '0' ≤ c && c ≤ '9'

/-- Whitespace, the model of the regex class `\s` and of `str.strip`:
ASCII whitespace plus the no-break space ` `. -/
def isSpaceC (c : Char) : Bool :=
  c = ' ' || c = '\t' || c = '\n' || c = '\r' || c = '\x0b' || c = '\x0c' || c = ' '

/-- The regex character class `[\d\s().,\-]` used by `PHONE_CANDIDATE_RE`
(line 19) and by the field capture group of `_buscar_campo_telef` (line 202). -/
def isSepC (c : Char) : Bool :=
  isDigitC c || isSpaceC c || c = '(' || c = ')' || c = '.' || c = ',' || c = '-'

/-- Word character for the regex word boundary `\b` (ASCII model of `\w`). -/
def isWordC (c : Char) : Bool :=
  isDigitC c || ('a' ≤ c && c ≤ 'z') || ('A' ≤ c && c ≤ 'Z') || c = '_'

/-- `s.startswith(pat)`-style test: the first `pat.length` characters of `s`
are exactly `pat`. -/
def begins (pat s : List Char) : Bool := decide (s.take pat.length = pat)

/-- Case-insensitive `begins`, for patterns compiled with `re.IGNORECASE`;
`pat` is given in upper case. -/
def beginsCI (pat s : List Char) : Bool :=
  decide ((s.take pat.length).map Char.toUpper = pat)

/-- `re.sub(r"\D", "", s)`: keep only the digits. -/
def onlyDigits (s : List Char) : List Char := s.filter isDigitC

/-- `s.replace(" ", " ")` on a single character. -/
def replNbsp (c : Char) : Char := if c = ' ' then ' ' else c

/-- Python `str.strip()`: drop whitespace from both ends. -/
def pyStrip (s : List Char) : List Char :=
  ((s.dropWhile isSpaceC).reverse.dropWhile isSpaceC).reverse

/-- `s.startswith("+")` (line 259). -/
def startsPlus (s : List Char) : Bool := begins ('+' :: []) s

/-- `s.startswith("00")` (line 247). -/
def startsWith00 (s : List Char) : Bool := begins ('0' :: '0' :: []) s

/-- First character of `l` belongs to `set` (Python `l[0] in set`,
guarded by a length check at every call site of the source). -/
def headIn (l : List Char) (set : List Char) : Bool :=
  match l with
  | c :: _ => set.contains c
  | [] => false

/-- Character at index `n` belongs to `set` (Python `l[n] in set`, guarded
by a length check at every call site of the source). -/
def nthIn (l : List Char) (n : Nat) (set : List Char) : Bool :=
  match (l.drop n).head? with
  | some c => set.contains c
  | none => false

/-- `digits.startswith("0") and len(digits) == 10 and digits[1] in "6789"`
(line 271): a Spanish number written with the trunk `0`. -/
def trunkCond (ds : List Char) : Bool :=
  begins ('0' :: []) ds && decide (ds.length = 10) &&
    nthIn ds 1 ('6' :: '7' :: '8' :: '9' :: [])

/-- `digits.startswith("34") and len(digits) == 11 and digits[2] in "6789"`
(line 275): a Spanish number with the country code `34` and no `+`. -/
def cond34 (ds : List Char) : Bool :=
  begins ('3' :: '4' :: []) ds && decide (ds.length = 11) &&
    nthIn ds 2 ('6' :: '7' :: '8' :: '9' :: [])

/-- Lines 259-263 of `_normalizar_telefono`: the value after the `+`.
Keep `+` and the digits, accept when the digit count is within 8..15. -/
def plusPart (tl : List Char) : Option (List Char) :=
  let ds := onlyDigits tl
  if 8 ≤ ds.length ∧ ds.length ≤ 15 then some ('+' :: ds) else none

/-- Lines 279-286 of `_normalizar_telefono`: decisions on the (possibly
trunk-stripped) digit string. -/
def digitsPart2 (ds2 : List Char) : Option (List Char) :=
  if cond34 ds2 then some (ds2.drop 2)
  else if ds2.length = 9 then some ds2
  else if 8 ≤ ds2.length ∧ ds2.length ≤ 15 then some ('+' :: ds2)
  else none

/-- Lines 265-286 of `_normalizar_telefono`: the no-`+` path. Strip all
non-digits, reject the empty result, drop a Spanish trunk `0`, then decide. -/
def digitsPart (s : List Char) : Option (List Char) :=
  let ds := onlyDigits s
  if ds = [] then none
  else digitsPart2 (if trunkCond ds then ds.drop 1 else ds)

/-- Lines 258-286 of `_normalizar_telefono`: the part after the `00`
handling, which dispatches on a leading `+`. -/
def normStep2 (s : List Char) : Option (List Char) :=
  if startsPlus s then plusPart (s.drop 1) else digitsPart s

/-- Lines 247-256 of `_normalizar_telefono`: `s` started with `00`;
`rest` is `re.sub(r"\D", "", s[2:])`.  A 9-digit remainder starting 6/7 or
8/9 is returned as a domestic number, anything else is re-dispatched as
`"+" + rest`. -/
def norm00 (rest : List Char) : Option (List Char) :=
  if decide (rest.length = 9) && headIn rest ('6' :: '7' :: []) then some rest
  else if decide (rest.length = 9) && headIn rest ('8' :: '9' :: []) then some rest
  else normStep2 ('+' :: rest)

/-- `_normalizar_telefono` applied to the stripped value. -/
def normalizeStripped (s : List Char) : Option (List Char) :=
  if startsWith00 s then norm00 (onlyDigits (s.drop 2)) else normStep2 s

/-- `EpacFichaPeritacionPage._normalizar_telefono` (lines 237-286):
reject the empty input, strip, replace no-break spaces and strip again,
then normalize. -/
def normalizar (raw : List Char) : Option (List Char) :=
  if raw = [] then none
  else normalizeStripped (pyStrip (List.map replNbsp (pyStrip raw)))

/-- Line-type classes returned by the metadata collaborator
(`phonenumbers.phonenumberutil.PhoneNumberType`); everything other than the
two accepted classes is collapsed into `OTHER`. -/
inductive PhoneNumberType where
  | MOBILE
  | FIXED_LINE_OR_MOBILE
  | OTHER

/-- Modelled from the spec: the external phone-number metadata collaborator
(the `phonenumbers` library), which is not part of this repository.  It
offers `parse` (which may raise `NumberParseException`, modelled as
`Except.error ()`), `is_valid_number`, and `number_type` over an opaque
parsed-number type `PN`.  At `es_movil`, the parameter `none` models the
library being unavailable at runtime (the `phonenumbers is None` guard of
line 304). -/
structure PhoneMeta where
  PN : Type
  parse : List Char → Except Unit PN
  is_valid_number : PN → Bool
  number_type : PN → PhoneNumberType

/-- `EpacFichaPeritacionPage._es_movil` (lines 289-318): a national
(9-digit) value is mobile iff it starts 6/7; a `+`-value is accepted via the
metadata collaborator (or unconditionally when the collaborator is absent);
a parse exception is caught and rejects the value. -/
def es_movil (meta : Option PhoneMeta) (tel : List Char) : Bool :=
  match tel with
  | [] => false
  | c :: rest =>
    if c = '+' then
      match meta with
      | none => true
      | some m =>
        match m.parse (c :: rest) with
        | Except.error _ => false
        | Except.ok num =>
          if m.is_valid_number num then
            match m.number_type num with
            | PhoneNumberType.MOBILE => true
            | PhoneNumberType.FIXED_LINE_OR_MOBILE => true
            | PhoneNumberType.OTHER => false
          else false
    else decide ((c :: rest).length = 9) && (c = '6' || c = '7')

/-!
### Candidate tokenizer

`PHONE_CANDIDATE_RE = (?:\+|00)?\s*\d[\d\s().,\-]{6,}\d` (line 19), consumed
with `finditer` (leftmost, non-overlapping matches).  For this pattern the
greedy/backtracking semantics of `re` collapses to: whitespace runs before a
digit are forced (whitespace and digits are disjoint), the `{6,}` run is the
maximal run of class characters truncated back to the last digit position
`≥ 6`, and the `(?:\+|00)?` alternation tries `+`, then `00`, then nothing.
-/

/-- Index of the final `\d` of `[\d\s().,\-]{6,}\d`: the largest `k < bound`
with `6 ≤ k` and a digit at position `k` of `rest`; `bound` is the length of
the maximal class-character run, so every position `< bound` is a class
character. -/
def lastDigitIdx (rest : List Char) : Nat → Option Nat
  | 0 => none
  | k + 1 =>
    if 6 ≤ k && (match rest.drop k with
                 | c :: _ => isDigitC c
                 | [] => false) then some k
    else lastDigitIdx rest k

/-- Length matched by `\s*\d[\d\s().,\-]{6,}\d` at the head of `s`, if any. -/
def candBody (s : List Char) : Option Nat :=
  let w := (s.takeWhile isSpaceC).length
  match s.drop w with
  | d :: rest =>
    if isDigitC d then
      match lastDigitIdx rest (rest.takeWhile isSepC).length with
      | some k => some (w + 1 + k + 1)
      | none => none
    else none
  | [] => none

/-- Length matched by the full `PHONE_CANDIDATE_RE` at the head of `s`:
the alternation `(?:\+|00)?` tries `+`, then `00`, then the empty prefix. -/
def matchCandAt (s : List Char) : Option Nat :=
  (match s with
   | '+' :: rest => (candBody rest).map (fun n => n + 1)
   | _ => none) <|>
  (match s with
   | '0' :: '0' :: rest => (candBody rest).map (fun n => n + 2)
   | _ => none) <|>
  candBody s

/-- `PHONE_CANDIDATE_RE.finditer`: scan left to right, at each position try
the pattern, on success emit the match and resume after it.  The fuel is the
length of the remaining text (every step consumes at least one character). -/
def finditerAux : Nat → List Char → List (List Char)
  | 0, _ => []
  | _ + 1, [] => []
  | f + 1, c :: rest =>
    match matchCandAt (c :: rest) with
    | some n => (c :: rest).take n :: finditerAux f ((c :: rest).drop n)
    | none => finditerAux f rest

/-- All candidates of `texto`, in order of appearance. -/
def finditerCand (s : List Char) : List (List Char) := finditerAux s.length s

/-- The loop of `_extraer_numero_telefono` (lines 224-235): normalize each
candidate in order and return the first one the classifier accepts. -/
def firstMobile (meta : Option PhoneMeta) : List (List Char) → Option (List Char)
  | [] => none
  | c :: cs =>
    match normalizar c with
    | none => firstMobile meta cs
    | some tel => if es_movil meta tel then some tel else firstMobile meta cs

/-- `EpacFichaPeritacionPage._extraer_numero_telefono` (lines 220-235). -/
def extraer_numero_telefono (meta : Option PhoneMeta) (texto : List Char) :
    Option (List Char) :=
  if texto = [] then none
  else firstMobile meta (finditerCand texto)

/-!
### Cut delimiters and the section extractor

`CUT_PATTERNS` (lines 22-26) and `_buscar_en_seccion` (lines 162-191).
For each pattern only the start position of the first match matters
(`m.start()`), so each is embedded as a decidable does-a-match-start-here
test plus a leftmost search.
-/

/-- `\s*\n` matches at the head of `s`: a newline is reachable through
whitespace only (a newline is itself whitespace). -/
def wsNl : List Char → Bool
  | [] => false
  | c :: rest => if c = '\n' then true else if isSpaceC c then wsNl rest else false

/-- `\n\s*-{10,}\s*\n` matches starting at the head of `t`. -/
def matchCut1 (t : List Char) : Bool :=
  match t with
  | '\n' :: t1 =>
    let t2 := t1.dropWhile isSpaceC
    let d := (t2.takeWhile (fun c => c = '-')).length
    decide (10 ≤ d) && wsNl (t2.drop d)
  | _ => false

/-- `\n\s*SINIESTROS\s*\n` (IGNORECASE) matches starting at the head of `t`. -/
def matchCut2 (t : List Char) : Bool :=
  match t with
  | '\n' :: t1 =>
    let t2 := t1.dropWhile isSpaceC
    beginsCI ("SINIESTROS".toList) t2 && wsNl (t2.drop 10)
  | _ => false

/-- `\n\s*NUMERO\s+FECHA\s+RESERVA\s+` (IGNORECASE) matches starting at the
head of `t`; each interior `\s+` is forced to the full whitespace run. -/
def matchCut3 (t : List Char) : Bool :=
  match t with
  | '\n' :: t1 =>
    let t2 := t1.dropWhile isSpaceC
    beginsCI ("NUMERO".toList) t2 &&
    (let u := t2.drop 6
     let w1 := (u.takeWhile isSpaceC).length
     decide (1 ≤ w1) && beginsCI ("FECHA".toList) (u.drop w1) &&
     (let v := (u.drop w1).drop 5
      let w2 := (v.takeWhile isSpaceC).length
      decide (1 ≤ w2) && beginsCI ("RESERVA".toList) (v.drop w2) &&
      (match (v.drop w2).drop 7 with
       | c :: _ => isSpaceC c
       | [] => false)))
  | _ => false

/-- Some cut pattern matches starting at the head of `t`. -/
def cutMatchAny (t : List Char) : Bool := matchCut1 t || matchCut2 t || matchCut3 t

/-- `pat.search(s).start()`: position of the leftmost match, where `p`
decides whether a match starts at a given suffix. -/
def searchPos (p : List Char → Bool) : List Char → Option Nat
  | [] => if p [] then some 0 else none
  | c :: rest =>
    if p (c :: rest) then some 0 else (searchPos p rest).map (fun n => n + 1)

/-- Minimum of two optional positions (the `cut_idx` accumulation of
lines 174-179). -/
def minOpt : Option Nat → Option Nat → Option Nat
  | none, b => b
  | some a, none => some a
  | some a, some b => some (min a b)

/-- Earliest start position among the three `CUT_PATTERNS` in `chunk`. -/
def cutIdx (chunk : List Char) : Option Nat :=
  minOpt (searchPos matchCut1 chunk)
    (minOpt (searchPos matchCut2 chunk) (searchPos matchCut3 chunk))

/-- Truncate `chunk` at the earliest cut-delimiter match (lines 181-182). -/
def applyCut (chunk : List Char) : List Char :=
  match cutIdx chunk with
  | some i => chunk.take i
  | none => chunk

/-- Cut, then hard-cap at 400 characters (line 185). -/
def sectionChunk (chunk : List Char) : List Char := (applyCut chunk).take 400

/-- `texto.rfind(pat)`: index of the last occurrence of `pat` in the text,
`none` when absent. -/
def pyRfind (pat : List Char) : List Char → Option Nat
  | [] => if begins pat [] then some 0 else none
  | c :: rest =>
    match pyRfind pat rest with
    | some j => some (j + 1)
    | none => if begins pat (c :: rest) then some 0 else none

/-- `EpacFichaPeritacionPage._buscar_en_seccion` (lines 162-191): find the
last occurrence of the label, take what follows, cut, cap at 400, and
tokenize. -/
def buscar_en_seccion (meta : Option PhoneMeta) (texto etiqueta : List Char) :
    Option (List Char) :=
  match pyRfind etiqueta texto with
  | none => none
  | some pos =>
    extraer_numero_telefono meta (sectionChunk (texto.drop (pos + etiqueta.length)))

/-!
### Field extractor

`_buscar_campo_telef` (lines 193-215): the pattern
`{base}\s*:?\s*([+0-9][0-9\s().,\-]{6,})` with IGNORECASE, searched
leftmost; the capture group is split at a word-bounded `HORA`, stripped,
and handed to the tokenizer.
-/

/-- Try the field pattern at the head of `t`; on success return the capture
group.  The `\s*:?\s*` glue is forced (whitespace, `:` and `[+0-9]` are
pairwise disjoint) and the `{6,}` run is maximal (nothing follows it in the
pattern). -/
def fieldMatchAt (base : List Char) (t : List Char) : Option (List Char) :=
  if beginsCI base t then
    let t1 := (t.drop base.length).dropWhile isSpaceC
    let t2 := match t1 with
              | ':' :: r => r.dropWhile isSpaceC
              | _ => t1
    match t2 with
    | c :: rest =>
      if c = '+' || isDigitC c then
        let run := rest.takeWhile isSepC
        if 6 ≤ run.length then some (c :: run) else none
      else none
    | [] => none
  else none

/-- `re.search` for the field pattern: first position (left to right) where
it matches, returning the capture group. -/
def searchFieldAux (base : List Char) : List Char → Option (List Char)
  | [] => none
  | c :: rest =>
    match fieldMatchAt base (c :: rest) with
    | some v => some v
    | none => searchFieldAux base rest

/-- A word-bounded occurrence of `HORA` (IGNORECASE) starts at the head of
`t`; `prev` is the character just before `t`, if any. -/
def horaAt (prev : Option Char) (t : List Char) : Bool :=
  beginsCI ("HORA".toList) t &&
  (match prev with
   | some p => !isWordC p
   | none => true) &&
  (match t.drop 4 with
   | c :: _ => !isWordC c
   | [] => true)

/-- Walk `s` keeping everything before the first word-bounded `HORA`. -/
def splitHoraAux (prev : Option Char) : List Char → List Char
  | [] => []
  | c :: rest => if horaAt prev (c :: rest) then [] else c :: splitHoraAux (some c) rest

/-- `re.split(r"\bHORA\b", valor, flags=re.IGNORECASE)[0]` (line 209). -/
def splitHora (s : List Char) : List Char := splitHoraAux none s

/-- `EpacFichaPeritacionPage._buscar_campo_telef` (lines 193-215). -/
def buscar_campo_telef (meta : Option PhoneMeta) (texto campo : List Char) :
    Option (List Char) :=
  let base := pyStrip (campo.filter (fun c => !(c = ':')))
  match searchFieldAux base texto with
  | none => none
  | some valor => extraer_numero_telefono meta (pyStrip (splitHora valor))

/-! ### Priority orchestrator -/

/-- The label `OBSERVACIONES MANUALES:`. -/
def OBS_LABEL : List Char := "OBSERVACIONES MANUALES:".toList

/-- The label `DESCRIPCION:`. -/
def DESC_LABEL : List Char := "DESCRIPCION:".toList

/-- The field label `TELEF-1:`. -/
def TELEF1_LABEL : List Char := "TELEF-1:".toList

/-- The field label `TELEF-2:`. -/
def TELEF2_LABEL : List Char := "TELEF-2:".toList

/-- `EpacFichaPeritacionPage.extraer_telefono` (lines 35-84): reject empty
text, then try `OBSERVACIONES MANUALES`, `DESCRIPCION`, `TELEF-1`,
`TELEF-2` in that order, returning the first hit. -/
def extraer_telefono (meta : Option PhoneMeta) (texto : List Char) :
    Option (List Char) :=
  if texto = [] then none
  else
    match buscar_en_seccion meta texto OBS_LABEL with
    | some t => some t
    | none =>
      match buscar_en_seccion meta texto DESC_LABEL with
      | some t => some t
      | none =>
        match buscar_campo_telef meta texto TELEF1_LABEL with
        | some t => some t
        | none => buscar_campo_telef meta texto TELEF2_LABEL

/-! ### Shape predicates and witness collaborators -/

/-- Canonical shape actually produced by `_normalizar_telefono`: either a
9-character digit string, or `+` followed by 8 to 15 digits. -/
def isCanonicalB (r : List Char) : Bool :=
  (decide (r.length = 9) && r.all isDigitC) ||
  (match r with
   | c :: ds =>
     decide (c = '+') && ds.all isDigitC &&
       decide (8 ≤ ds.length) && decide (ds.length ≤ 15)
   | [] => false)

/-- Modelled from the spec: the `CanonicalNumber` shape exactly as §3 words
it — a 9-digit national string *with no leading zero*, or `+` followed by
8 to 15 digits.  Kept separate from `isCanonicalB` (the shape the code
really produces) so the two can be compared. -/
def claimC6Shape (r : List Char) : Bool :=
  (decide (r.length = 9) && r.all isDigitC && !(headIn r ('0' :: []))) ||
  (match r with
   | c :: ds =>
     decide (c = '+') && ds.all isDigitC &&
       decide (8 ≤ ds.length) && decide (ds.length ≤ 15)
   | [] => false)

/-- Shape of every accepted extraction result: a bare value is 9 digits
starting 6 or 7; a `+` value carries 8 to 15 digits. -/
def c10Shape (r : List Char) : Bool :=
  match r with
  | [] => false
  | c :: rest =>
    if c = '+' then
      rest.all isDigitC && decide (8 ≤ rest.length) && decide (rest.length ≤ 15)
    else
      decide ((c :: rest).length = 9) && (c :: rest).all isDigitC &&
        (c = '6' || c = '7')

/-- A collaborator instance whose `parse` always raises, used to witness the
exception-handling behaviour of `es_movil`. -/
def rejMeta : PhoneMeta where
  PN := Unit
  parse := fun _ => Except.error ()
  is_valid_number := fun _ => false
  number_type := fun _ => PhoneNumberType.OTHER

/-! ### Basic lemmas about the character-level helpers -/

theorem all_onlyDigits (s : List Char) : (onlyDigits s).all isDigitC = true := by
  simp only [onlyDigits, List.all_eq_true]
  intro x hx
  exact (List.mem_filter.mp hx).2

theorem onlyDigits_of_all {s : List Char} (h : s.all isDigitC = true) :
    onlyDigits s = s := by
  simp only [List.all_eq_true] at h
  exact List.filter_eq_self.mpr h

theorem all_drop {p : Char → Bool} {s : List Char} (h : s.all p = true) (n : Nat) :
    (s.drop n).all p = true := by
  simp only [List.all_eq_true] at h ⊢
  intro x hx
  exact h x (List.drop_subset n s hx)

theorem digit_not_space {c : Char} (h : isDigitC c = true) : isSpaceC c = false := by
  cases hs : isSpaceC c with
  | false => rfl
  | true =>
    exfalso
    simp only [isSpaceC, Bool.or_eq_true, decide_eq_true_eq] at hs
    rcases hs with (((((h1 | h1) | h1) | h1) | h1) | h1) | h1 <;>
      (subst h1; exact absurd h (by decide))

theorem replNbsp_digit {c : Char} (h : isDigitC c = true) : replNbsp c = c := by
  unfold replNbsp
  split
  · next heq => rw [heq] at h; exact absurd h (by decide)
  · rfl

theorem map_id_of {s : List Char} {f : Char → Char} (h : ∀ c ∈ s, f c = c) :
    s.map f = s := by
  induction s with
  | nil => rfl
  | cons c rest ih =>
    simp only [List.map_cons]
    rw [h c (List.mem_cons_self c rest), ih (fun x hx => h x (List.mem_cons_of_mem c hx))]

theorem dropWhile_id_of {p : Char → Bool} {s : List Char}
    (h : ∀ c ∈ s, p c = false) : s.dropWhile p = s := by
  cases s with
  | nil => rfl
  | cons c rest =>
    rw [List.dropWhile_cons, h c (List.mem_cons_self c rest)]
    simp

theorem pyStrip_id {s : List Char} (h : ∀ c ∈ s, isSpaceC c = false) :
    pyStrip s = s := by
  unfold pyStrip
  rw [dropWhile_id_of h,
    dropWhile_id_of (fun c hc => h c (List.mem_reverse.mp hc)),
    List.reverse_reverse]

/-! ### Shape of every non-null normalizer result -/

theorem plusPart_shape {tl r : List Char} (h : plusPart tl = some r) :
    isCanonicalB r = true := by
  simp only [plusPart] at h
  split at h
  · next hb =>
    cases h
    simp only [isCanonicalB, Bool.or_eq_true, Bool.and_eq_true, decide_eq_true_eq]
    exact Or.inr ⟨⟨⟨trivial, all_onlyDigits tl⟩, hb.1⟩, hb.2⟩
  · nomatch h

theorem digitsPart2_shape {ds2 r : List Char} (hall : ds2.all isDigitC = true)
    (h : digitsPart2 ds2 = some r) : isCanonicalB r = true := by
  unfold digitsPart2 at h
  split at h
  · next hc =>
    cases h
    simp only [cond34, Bool.and_eq_true, decide_eq_true_eq] at hc
    simp only [isCanonicalB, Bool.or_eq_true, Bool.and_eq_true, decide_eq_true_eq]
    exact Or.inl ⟨by simp [List.length_drop, hc.1.2], all_drop hall 2⟩
  · split at h
    · next hlen =>
      cases h
      simp only [isCanonicalB, Bool.or_eq_true, Bool.and_eq_true, decide_eq_true_eq]
      exact Or.inl ⟨hlen, hall⟩
    · split at h
      · next hb =>
        cases h
        simp only [isCanonicalB, Bool.or_eq_true, Bool.and_eq_true, decide_eq_true_eq]
        exact Or.inr ⟨⟨⟨trivial, hall⟩, hb.1⟩, hb.2⟩
      · nomatch h

theorem digitsPart_shape {s r : List Char} (h : digitsPart s = some r) :
    isCanonicalB r = true := by
  simp only [digitsPart] at h
  split at h
  · nomatch h
  · refine digitsPart2_shape ?_ h
    split
    · exact all_drop (all_onlyDigits s) 1
    · exact all_onlyDigits s

theorem normStep2_shape {s r : List Char} (h : normStep2 s = some r) :
    isCanonicalB r = true := by
  unfold normStep2 at h
  split at h
  · exact plusPart_shape h
  · exact digitsPart_shape h

theorem norm00_shape {rest r : List Char} (hall : rest.all isDigitC = true)
    (h : norm00 rest = some r) : isCanonicalB r = true := by
  unfold norm00 at h
  split at h
  · next hb =>
    cases h
    simp only [Bool.and_eq_true, decide_eq_true_eq] at hb
    simp only [isCanonicalB, Bool.or_eq_true, Bool.and_eq_true, decide_eq_true_eq]
    exact Or.inl ⟨hb.1, hall⟩
  · split at h
    · next hb =>
      cases h
      simp only [Bool.and_eq_true, decide_eq_true_eq] at hb
      simp only [isCanonicalB, Bool.or_eq_true, Bool.and_eq_true, decide_eq_true_eq]
      exact Or.inl ⟨hb.1, hall⟩
    · exact normStep2_shape h

theorem normalizar_shape {raw r : List Char} (h : normalizar raw = some r) :
    isCanonicalB r = true := by
  unfold normalizar at h
  split at h
  · nomatch h
  · unfold normalizeStripped at h
    split at h
    · exact norm00_shape (all_onlyDigits _) h
    · exact normStep2_shape h



/-! ### Specification of the leftmost and rightmost searches -/

theorem pyRfind_begins {pat : List Char} :
    ∀ {s : List Char} {p : Nat}, pyRfind pat s = some p →
      begins pat (s.drop p) = true := by
  intro s
  induction s with
  | nil =>
    intro p h
    unfold pyRfind at h
    by_cases hb : begins pat [] = true
    · rw [if_pos hb] at h
      cases Option.some.inj h
      simpa using hb
    · rw [if_neg hb] at h
      nomatch h
  | cons c rest ih =>
    intro p h
    unfold pyRfind at h
    cases hr : pyRfind pat rest with
    | some j =>
      rw [hr] at h
      cases Option.some.inj h
      simpa [List.drop_succ_cons] using ih hr
    | none =>
      rw [hr] at h
      by_cases hb : begins pat (c :: rest) = true
      · rw [if_pos hb] at h
        cases Option.some.inj h
        simpa using hb
      · rw [if_neg hb] at h
        nomatch h

theorem pyRfind_none {pat : List Char} :
    ∀ {s : List Char}, pyRfind pat s = none →
      ∀ q, begins pat (s.drop q) = false := by
  intro s
  induction s with
  | nil =>
    intro h q
    unfold pyRfind at h
    by_cases hb : begins pat [] = true
    · rw [if_pos hb] at h; nomatch h
    · simpa [List.drop_nil] using Bool.not_eq_true _ ▸ hb
  | cons c rest ih =>
    intro h q
    unfold pyRfind at h
    cases hr : pyRfind pat rest with
    | some j => rw [hr] at h; nomatch h
    | none =>
      rw [hr] at h
      by_cases hb : begins pat (c :: rest) = true
      · rw [if_pos hb] at h; nomatch h
      · cases q with
        | zero => simpa using hb
        | succ q2 => simpa [List.drop_succ_cons] using ih hr q2

theorem pyRfind_last {pat : List Char} (hpat : pat ≠ []) :
    ∀ {s : List Char} {p : Nat}, pyRfind pat s = some p →
      ∀ q, begins pat (s.drop q) = true → q ≤ p := by
  intro s
  induction s with
  | nil =>
    intro p h
    exfalso
    unfold pyRfind at h
    by_cases hb : begins pat [] = true
    · simp only [begins, List.take_nil, decide_eq_true_eq] at hb
      exact hpat hb.symm
    · rw [if_neg hb] at h
      nomatch h
  | cons c rest ih =>
    intro p h q hq
    unfold pyRfind at h
    cases hr : pyRfind pat rest with
    | some j =>
      rw [hr] at h
      cases Option.some.inj h
      cases q with
      | zero => exact Nat.zero_le _
      | succ q2 =>
        rw [List.drop_succ_cons] at hq
        exact Nat.succ_le_succ (ih hr q2 hq)
    | none =>
      rw [hr] at h
      by_cases hb : begins pat (c :: rest) = true
      · rw [if_pos hb] at h
        cases Option.some.inj h
        cases q with
        | zero => exact Nat.le_refl 0
        | succ q2 =>
          rw [List.drop_succ_cons] at hq
          rw [pyRfind_none hr q2] at hq
          nomatch hq
      · rw [if_neg hb] at h
        nomatch h

theorem searchPos_holds {p : List Char → Bool} :
    ∀ {s : List Char} {i : Nat}, searchPos p s = some i → p (s.drop i) = true := by
  intro s
  induction s with
  | nil =>
    intro i h
    unfold searchPos at h
    by_cases hb : p [] = true
    · rw [if_pos hb] at h
      cases Option.some.inj h
      simpa using hb
    · rw [if_neg hb] at h
      nomatch h
  | cons c rest ih =>
    intro i h
    unfold searchPos at h
    by_cases hb : p (c :: rest) = true
    · rw [if_pos hb] at h
      cases Option.some.inj h
      exact hb
    · rw [if_neg hb] at h
      cases hr : searchPos p rest with
      | some j =>
        rw [hr] at h
        cases Option.some.inj h
        simpa [List.drop_succ_cons] using ih hr
      | none => rw [hr] at h; nomatch h

theorem searchPos_none {p : List Char → Bool} (hnil : p [] = false) :
    ∀ {s : List Char}, searchPos p s = none → ∀ q, p (s.drop q) = false := by
  intro s
  induction s with
  | nil =>
    intro _ q
    simpa [List.drop_nil] using hnil
  | cons c rest ih =>
    intro h q
    unfold searchPos at h
    by_cases hb : p (c :: rest) = true
    · rw [if_pos hb] at h; nomatch h
    · rw [if_neg hb] at h
      cases hr : searchPos p rest with
      | some j => rw [hr] at h; nomatch h
      | none =>
        cases q with
        | zero => simpa using hb
        | succ q2 => simpa [List.drop_succ_cons] using ih hr q2

theorem searchPos_min {p : List Char → Bool} :
    ∀ {s : List Char} {i : Nat}, searchPos p s = some i →
      ∀ q, p (s.drop q) = true → i ≤ q := by
  intro s
  induction s with
  | nil =>
    intro i h q hq
    unfold searchPos at h
    by_cases hb : p [] = true
    · rw [if_pos hb] at h
      cases Option.some.inj h
      exact Nat.zero_le _
    · rw [if_neg hb] at h
      nomatch h
  | cons c rest ih =>
    intro i h q hq
    unfold searchPos at h
    by_cases hb : p (c :: rest) = true
    · rw [if_pos hb] at h
      cases Option.some.inj h
      exact Nat.zero_le _
    · rw [if_neg hb] at h
      cases hr : searchPos p rest with
      | some j =>
        rw [hr] at h
        cases Option.some.inj h
        cases q with
        | zero => exact absurd hq hb
        | succ q2 =>
          rw [List.drop_succ_cons] at hq
          exact Nat.succ_le_succ (ih hr q2 hq)
      | none => rw [hr] at h; nomatch h

theorem minOpt_cases {a b : Option Nat} {i : Nat} (h : minOpt a b = some i) :
    (a = some i ∨ b = some i) ∧
      (∀ x, a = some x → i ≤ x) ∧ (∀ x, b = some x → i ≤ x) := by
  cases a with
  | none =>
    cases b with
    | none => nomatch h
    | some y =>
      have hy : y = i := Option.some.inj h
      subst hy
      refine ⟨Or.inr rfl, ?_, ?_⟩
      · intro x hx; nomatch hx
      · intro x hx
        have := Option.some.inj hx
        omega
  | some x0 =>
    cases b with
    | none =>
      have hy : x0 = i := Option.some.inj h
      subst hy
      refine ⟨Or.inl rfl, ?_, ?_⟩
      · intro x hx
        have := Option.some.inj hx
        omega
      · intro x hx; nomatch hx
    | some y =>
      have hy : min x0 y = i := Option.some.inj h
      have hor : i = x0 ∨ i = y := by omega
      refine ⟨?_, ?_, ?_⟩
      · rcases hor with h1 | h1
        · exact Or.inl (by rw [h1])
        · exact Or.inr (by rw [h1])
      · intro x hx
        have := Option.some.inj hx
        omega
      · intro x hx
        have := Option.some.inj hx
        omega

/-! ### Every returned value came from the normalizer and passed the classifier -/

theorem firstMobile_inv {meta : Option PhoneMeta} :
    ∀ {l : List (List Char)} {r : List Char}, firstMobile meta l = some r →
      (∃ c, normalizar c = some r) ∧ es_movil meta r = true := by
  intro l
  induction l with
  | nil => intro r h; nomatch h
  | cons c cs ih =>
    intro r h
    unfold firstMobile at h
    split at h
    · exact ih h
    · next tel hn =>
      by_cases he : es_movil meta tel = true
      · rw [if_pos he] at h
        cases Option.some.inj h
        exact ⟨⟨c, hn⟩, he⟩
      · rw [if_neg he] at h
        exact ih h

theorem extraer_numero_inv {meta : Option PhoneMeta} {t r : List Char}
    (h : extraer_numero_telefono meta t = some r) :
    (∃ c, normalizar c = some r) ∧ es_movil meta r = true := by
  unfold extraer_numero_telefono at h
  split at h
  · nomatch h
  · exact firstMobile_inv h

theorem buscar_en_seccion_inv {meta : Option PhoneMeta} {texto et r : List Char}
    (h : buscar_en_seccion meta texto et = some r) :
    (∃ c, normalizar c = some r) ∧ es_movil meta r = true := by
  unfold buscar_en_seccion at h
  split at h
  · nomatch h
  · exact extraer_numero_inv h

theorem buscar_campo_inv {meta : Option PhoneMeta} {texto campo r : List Char}
    (h : buscar_campo_telef meta texto campo = some r) :
    (∃ c, normalizar c = some r) ∧ es_movil meta r = true := by
  simp only [buscar_campo_telef] at h
  split at h
  · nomatch h
  · exact extraer_numero_inv h

theorem extraer_telefono_inv {meta : Option PhoneMeta} {texto r : List Char}
    (h : extraer_telefono meta texto = some r) :
    (∃ c, normalizar c = some r) ∧ es_movil meta r = true := by
  unfold extraer_telefono at h
  split at h
  · nomatch h
  · split at h
    · next t heq => cases Option.some.inj h; exact buscar_en_seccion_inv heq
    · split at h
      · next t heq => cases Option.some.inj h; exact buscar_en_seccion_inv heq
      · split at h
        · next t heq => cases Option.some.inj h; exact buscar_campo_inv heq
        · exact buscar_campo_inv h

theorem plus_not_digit : isDigitC '+' = false := by decide

theorem shape_and_movil {meta : Option PhoneMeta} {r : List Char}
    (hshape : isCanonicalB r = true) (hes : es_movil meta r = true) :
    c10Shape r = true := by
  cases r with
  | nil => exact absurd hshape (by decide)
  | cons c rest =>
    by_cases hc : c = '+'
    · subst hc
      simp only [isCanonicalB, Bool.or_eq_true, Bool.and_eq_true, decide_eq_true_eq,
        List.all_cons, plus_not_digit, Bool.false_and, Bool.false_eq_true, and_false,
        false_or] at hshape
      have hgoal : c10Shape ('+' :: rest) =
          (rest.all isDigitC && decide (8 ≤ rest.length) && decide (rest.length ≤ 15)) := by
        simp [c10Shape]
      rw [hgoal]
      simp only [Bool.and_eq_true, decide_eq_true_eq]
      exact ⟨⟨hshape.1.1.2, hshape.1.2⟩, hshape.2⟩
    · simp only [isCanonicalB, Bool.or_eq_true, Bool.and_eq_true, decide_eq_true_eq] at hshape
      rcases hshape with ⟨hlen, hall⟩ | hplus
      · simp only [es_movil, if_neg hc, Bool.and_eq_true, decide_eq_true_eq,
          Bool.or_eq_true] at hes
        simp only [c10Shape, if_neg hc, Bool.and_eq_true, decide_eq_true_eq,
          Bool.or_eq_true]
        exact ⟨⟨hlen, hall⟩, hes.2⟩
      · exact absurd hplus.1.1.1 hc

/-! ### Re-normalization of canonical values -/

theorem mem_all {p : Char → Bool} {s : List Char} (h : s.all p = true) {c : Char}
    (hc : c ∈ s) : p c = true :=
  List.all_eq_true.mp h c hc

theorem startsPlus_digit {c : Char} {rest : List Char} (hc : isDigitC c = true) :
    startsPlus (c :: rest) = false := by
  simp only [startsPlus, begins, List.length_cons, List.length_nil, Nat.zero_add,
    List.take_succ_cons, List.take_zero, decide_eq_false_iff_not]
  intro h
  cases h
  exact absurd hc (by decide)

theorem normalizar_digits_id {y : List Char} (hlen : y.length = 9)
    (hall : y.all isDigitC = true) (h00 : startsWith00 y = false) :
    normalizar y = some y := by
  have hne : y ≠ [] := by
    intro h
    rw [h] at hlen
    nomatch hlen
  have hnospace : ∀ c ∈ y, isSpaceC c = false :=
    fun c hc => digit_not_space (mem_all hall hc)
  have hstrip : pyStrip y = y := pyStrip_id hnospace
  have hmap : y.map replNbsp = y :=
    map_id_of (fun c hc => replNbsp_digit (mem_all hall hc))
  unfold normalizar
  rw [if_neg hne, hstrip, hmap, hstrip]
  unfold normalizeStripped
  rw [h00]
  simp only [Bool.false_eq_true, if_false]
  have hsp : startsPlus y = false := by
    cases y with
    | nil => exact absurd rfl hne
    | cons c rest => exact startsPlus_digit (mem_all hall (List.mem_cons_self c rest))
  unfold normStep2
  rw [hsp]
  simp only [Bool.false_eq_true, if_false]
  simp only [digitsPart, onlyDigits_of_all hall]
  rw [if_neg hne]
  have htr : trunkCond y = false := by
    simp [trunkCond, hlen]
  rw [htr]
  simp only [Bool.false_eq_true, if_false]
  have hc34 : cond34 y = false := by
    simp [cond34, hlen]
  unfold digitsPart2
  rw [hc34]
  simp only [Bool.false_eq_true, if_false]
  rw [if_pos hlen]

theorem normalizar_plus_id {ds : List Char} (hall : ds.all isDigitC = true)
    (h8 : 8 ≤ ds.length) (h15 : ds.length ≤ 15) :
    normalizar ('+' :: ds) = some ('+' :: ds) := by
  have hnospace : ∀ c ∈ ('+' :: ds), isSpaceC c = false := by
    intro c hc
    rcases List.mem_cons.mp hc with h1 | h1
    · rw [h1]; decide
    · exact digit_not_space (mem_all hall h1)
  have hstrip : pyStrip ('+' :: ds) = '+' :: ds := pyStrip_id hnospace
  have hmap : ('+' :: ds).map replNbsp = '+' :: ds := by
    refine map_id_of ?_
    intro c hc
    rcases List.mem_cons.mp hc with h1 | h1
    · rw [h1]; decide
    · exact replNbsp_digit (mem_all hall h1)
  have h00 : startsWith00 ('+' :: ds) = false := by
    cases ds with
    | nil => decide
    | cons d rest =>
      simp only [startsWith00, begins, List.length_cons, List.length_nil,
        List.take_succ_cons, decide_eq_false_iff_not]
      intro h
      nomatch h
  unfold normalizar
  rw [if_neg (by intro h; nomatch h), hstrip, hmap, hstrip]
  unfold normalizeStripped
  rw [h00]
  simp only [Bool.false_eq_true, if_false]
  have hsp : startsPlus ('+' :: ds) = true := by
    simp [startsPlus, begins]
  unfold normStep2
  rw [hsp]
  simp only [if_true]
  show plusPart ds = some ('+' :: ds)
  simp only [plusPart, onlyDigits_of_all hall]
  rw [if_pos ⟨h8, h15⟩]

theorem normalizar_canonical_id {y : List Char} (hsh : isCanonicalB y = true)
    (h00 : startsWith00 y = false) : normalizar y = some y := by
  cases y with
  | nil => exact absurd hsh (by decide)
  | cons c rest =>
    by_cases hc : c = '+'
    · subst hc
      simp only [isCanonicalB, Bool.or_eq_true, Bool.and_eq_true, decide_eq_true_eq,
        List.all_cons, plus_not_digit, Bool.false_and, Bool.false_eq_true, and_false,
        false_or] at hsh
      exact normalizar_plus_id hsh.1.1.2 hsh.1.2 hsh.2
    · simp only [isCanonicalB, Bool.or_eq_true, Bool.and_eq_true, decide_eq_true_eq]
        at hsh
      rcases hsh with ⟨hlen, hall⟩ | hplus
      · exact normalizar_digits_id hlen hall h00
      · exact absurd hplus.1.1.1 hc

/-! ### Unfolding the classifier on international values -/

theorem es_movil_plus_eq {m : PhoneMeta} (rest : List Char) :
    es_movil (some m) ('+' :: rest) =
      (match m.parse ('+' :: rest) with
       | Except.error _ => false
       | Except.ok num =>
         if m.is_valid_number num then
           match m.number_type num with
           | PhoneNumberType.MOBILE => true
           | PhoneNumberType.FIXED_LINE_OR_MOBILE => true
           | PhoneNumberType.OTHER => false
         else false) := rfl

theorem es_movil_plus_parse_error {m : PhoneMeta} {rest : List Char}
    (hp : m.parse ('+' :: rest) = Except.error ()) :
    es_movil (some m) ('+' :: rest) = false := by
  rw [es_movil_plus_eq, hp]

theorem es_movil_plus_invalid {m : PhoneMeta} {rest : List Char} {num : m.PN}
    (hp : m.parse ('+' :: rest) = Except.ok num)
    (hv : m.is_valid_number num = false) :
    es_movil (some m) ('+' :: rest) = false := by
  rw [es_movil_plus_eq, hp]
  simp only [hv, Bool.false_eq_true, if_false]

theorem minOpt_le_left {a b : Option Nat} {x : Nat} (h : a = some x) :
    ∃ y, minOpt a b = some y ∧ y ≤ x := by
  subst h
  cases b with
  | none => exact ⟨x, rfl, Nat.le_refl x⟩
  | some z => exact ⟨min x z, rfl, by omega⟩

theorem minOpt_le_right {a b : Option Nat} {x : Nat} (h : b = some x) :
    ∃ y, minOpt a b = some y ∧ y ≤ x := by
  subst h
  cases a with
  | none => exact ⟨x, rfl, Nat.le_refl x⟩
  | some z => exact ⟨min z x, rfl, by omega⟩

/-! ### The claims -/

/-- C1: `extraer_telefono` tries the labels strictly in the order
OBSERVACIONES MANUALES, DESCRIPCION, TELEF-1, TELEF-2 and returns the first
accepted number; in particular a hit in OBSERVACIONES MANUALES is returned
regardless of what the later labels would yield. -/
theorem claim1_priority_order : ∀ (meta : Option PhoneMeta) (texto t : List Char),
    (buscar_en_seccion meta texto OBS_LABEL = some t →
      extraer_telefono meta texto = some t) ∧
    (buscar_en_seccion meta texto OBS_LABEL = none →
      buscar_en_seccion meta texto DESC_LABEL = some t →
      extraer_telefono meta texto = some t) ∧
    (buscar_en_seccion meta texto OBS_LABEL = none →
      buscar_en_seccion meta texto DESC_LABEL = none →
      buscar_campo_telef meta texto TELEF1_LABEL = some t →
      extraer_telefono meta texto = some t) ∧
    (buscar_en_seccion meta texto OBS_LABEL = none →
      buscar_en_seccion meta texto DESC_LABEL = none →
      buscar_campo_telef meta texto TELEF1_LABEL = none →
      buscar_campo_telef meta texto TELEF2_LABEL = some t →
      extraer_telefono meta texto = some t) := by
  intro meta texto t
  by_cases ht : texto = []
  · subst ht
    have hobs : buscar_en_seccion meta [] OBS_LABEL = none := rfl
    have hdesc : buscar_en_seccion meta [] DESC_LABEL = none := rfl
    have ht1 : buscar_campo_telef meta [] TELEF1_LABEL = none := rfl
    have ht2 : buscar_campo_telef meta [] TELEF2_LABEL = none := rfl
    refine ⟨?_, ?_, ?_, ?_⟩
    · intro h; rw [hobs] at h; nomatch h
    · intro _ h; rw [hdesc] at h; nomatch h
    · intro _ _ h; rw [ht1] at h; nomatch h
    · intro _ _ _ h; rw [ht2] at h; nomatch h
  · refine ⟨?_, ?_, ?_, ?_⟩
    · intro h
      unfold extraer_telefono
      rw [if_neg ht, h]
    · intro h1 h2
      unfold extraer_telefono
      rw [if_neg ht, h1, h2]
    · intro h1 h2 h3
      unfold extraer_telefono
      rw [if_neg ht, h1, h2, h3]
    · intro h1 h2 h3 h4
      unfold extraer_telefono
      rw [if_neg ht, h1, h2, h3, h4]

/-- Witness for C1 at a concrete document in which the
OBSERVACIONES MANUALES section holds `655000111` while TELEF-1 holds a
different acceptable mobile. -/
theorem claim1_priority_order_witness :
    extraer_telefono none
        ("OBSERVACIONES MANUALES: 655000111 TELEF-1: 677000222".toList) =
      some ("655000111".toList) :=
  (claim1_priority_order none
    ("OBSERVACIONES MANUALES: 655000111 TELEF-1: 677000222".toList)
    ("655000111".toList)).1 (by rfl)

/-- C2: on `"TELEF-1:00685789868"` the field capture `00685789868` is
normalized by stripping the `00`; the 9-digit remainder starts with 6, so it
is classified as a Spanish mobile and `685789868` is returned — for any
state of the metadata collaborator, which is never consulted for national
numbers. -/
theorem claim2_telef1_disguised_mobile : ∀ meta : Option PhoneMeta,
    extraer_telefono meta ("TELEF-1:00685789868".toList) =
      some ("685789868".toList) := by
  intro meta
  rfl

/-- C3: the free-text section extractor works on the span following the
*last* occurrence of the label (`str.rfind`): whenever the label occurs at
`p` and nowhere later, the result is computed from `texto.drop (p + |label|)`
only; on the doubled OBSERVACIONES MANUALES document the second occurrence
wins and `611222333` is returned. -/
theorem claim3_last_occurrence :
    (∀ (meta : Option PhoneMeta) (texto etiqueta : List Char) (p : Nat),
        etiqueta ≠ [] → pyRfind etiqueta texto = some p →
        buscar_en_seccion meta texto etiqueta =
          extraer_numero_telefono meta
            (sectionChunk (texto.drop (p + etiqueta.length))) ∧
        ∀ q, begins etiqueta (texto.drop q) = true → q ≤ p) ∧
    extraer_telefono none
        ("OBSERVACIONES MANUALES: contacto inicial 600111222. OBSERVACIONES MANUALES: actualizado, nuevo numero 611222333".toList) =
      some ("611222333".toList) := by
  constructor
  · intro meta texto etiqueta p hpat hp
    constructor
    · unfold buscar_en_seccion
      rw [hp]
    · exact pyRfind_last hpat hp
  · rfl

/-- Witness for C3's general part: a label occurring twice, the second
occurrence at index 6. -/
theorem claim3_last_occurrence_witness :
    buscar_en_seccion none ("AA: 1 AA: 2".toList) ("AA:".toList) =
      extraer_numero_telefono none
        (sectionChunk (("AA: 1 AA: 2".toList).drop (6 + ("AA:".toList).length))) :=
  (claim3_last_occurrence.1 none ("AA: 1 AA: 2".toList) ("AA:".toList) 6
    (by decide) (by rfl)).1

/-- C4: on the DESCRIPCION document with a ten-dash delimiter line, the
section is truncated just before the dashes (the computed chunk is exactly
`" llamar al 612345678"`, so `999999999` is never tokenized) and extraction
returns `612345678` for any collaborator state. -/
theorem claim4_cut_before_dashes :
    sectionChunk
        (("DESCRIPCION: llamar al 612345678\n----------\nSINIESTROS\n999999999".toList).drop
          (0 + ("DESCRIPCION:".toList).length)) = (" llamar al 612345678".toList) ∧
    ∀ meta : Option PhoneMeta,
      extraer_telefono meta
          ("DESCRIPCION: llamar al 612345678\n----------\nSINIESTROS\n999999999".toList) =
        some ("612345678".toList) :=
  ⟨by rfl, fun meta => by rfl⟩

/-- C5 counterexample: the normalizer is not idempotent.  `"0 01234567"`
normalizes to the 9-digit string `"001234567"` (the plain 9-digit branch
keeps any digits), but re-normalizing `"001234567"` takes the `00` branch,
leaving 7 digits, which fails the international bounds: the second pass
yields `none`, not the same value. -/
theorem claim5_idempotence_cex :
    normalizar ("0 01234567".toList) = some ("001234567".toList) ∧
    normalizar ("001234567".toList) = none :=
  ⟨by rfl, by rfl⟩

/-- C5 (amended): the normalizer is idempotent on every non-null result that
does not itself begin with `00`; such results re-normalize to themselves. -/
theorem claim5_idempotent_amended :
    ∀ x y : List Char, normalizar x = some y → startsWith00 y = false →
      normalizar y = some y := by
  intro x y hx h00
  exact normalizar_canonical_id (normalizar_shape hx) h00

/-- Witness for C5 (amended) on the international result `+12345678`. -/
theorem claim5_idempotent_amended_witness :
    normalizar ("+12345678".toList) = some ("+12345678".toList) :=
  claim5_idempotent_amended ("+12345678".toList) ("+12345678".toList)
    (by rfl) (by rfl)

/-- C6 counterexample: `"012345678"` (9 digits, leading zero, second digit
not in 6-9 so the trunk rule does not fire) normalizes to itself, a value
with a leading zero — outside the claimed canonical shape. -/
theorem claim6_canonical_shape_cex :
    normalizar ("012345678".toList) = some ("012345678".toList) ∧
    claimC6Shape ("012345678".toList) = false :=
  ⟨by rfl, by rfl⟩

/-- C6 (amended): every non-null normalizer result is either a 9-character
digit string (a leading zero is possible) or `+` followed by 8 to 15
digits. -/
theorem claim6_canonical_shape_amended :
    ∀ raw r : List Char, normalizar raw = some r → isCanonicalB r = true := by
  intro raw r h
  exact normalizar_shape h

/-- Witness for C6 (amended) on the mobile `698765432`. -/
theorem claim6_canonical_shape_amended_witness :
    isCanonicalB ("698765432".toList) = true :=
  claim6_canonical_shape_amended ("698765432".toList) ("698765432".toList) (by rfl)

/-- C7 counterexample: normalization of the 8-digit capture `91234567` does
*not* fail — 8 digits are within the international bounds 8..15, so the
normalizer returns `+91234567` rather than `null`. -/
theorem claim7_normalization_cex :
    normalizar ("91234567".toList) = some ('+' :: "91234567".toList) := by rfl

/-- C7 (amended): on `"TELEF-2: 91234567"` the capture normalizes to
`+91234567`; it is the classifier that rejects it (the metadata collaborator
finds the parsed number invalid), so the field yields nothing and the
overall extraction result is `none`. -/
theorem claim7_landline_rejected_by_classifier :
    ∀ m : PhoneMeta,
      (∀ num : m.PN, m.parse ('+' :: "91234567".toList) = Except.ok num →
          m.is_valid_number num = false) →
      normalizar ("91234567".toList) = some ('+' :: "91234567".toList) ∧
      extraer_telefono (some m) ("TELEF-2: 91234567".toList) = none := by
  intro m hrej
  have hes : es_movil (some m) ('+' :: "91234567".toList) = false := by
    cases hp : m.parse ('+' :: "91234567".toList) with
    | error e =>
      cases e
      exact es_movil_plus_parse_error hp
    | ok num => exact es_movil_plus_invalid hp (hrej num hp)
  refine ⟨by rfl, ?_⟩
  have key : extraer_telefono (some m) ("TELEF-2: 91234567".toList) =
      (if es_movil (some m) ('+' :: "91234567".toList) = true
       then some ('+' :: "91234567".toList) else none) := rfl
  rw [key, hes]
  simp

/-- Witness for C7 (amended) with the always-raising collaborator. -/
theorem claim7_landline_rejected_witness :
    extraer_telefono (some rejMeta) ("TELEF-2: 91234567".toList) = none :=
  (claim7_landline_rejected_by_classifier rejMeta (fun _ h => nomatch h)).2

/-- C8 counterexample: the second cut pattern requires a line consisting of
`SINIESTROS` alone between whitespace; a line *containing* `SINIESTROS`
together with other text does not match, no cut fires, and a number placed
after that line is still extracted. -/
theorem claim8_siniestros_line_cex :
    cutIdx ("\nTABLA SINIESTROS X\n612999888".toList) = none ∧
    buscar_en_seccion none ("DESCRIPCION:\nTABLA SINIESTROS X\n612999888".toList)
        ("DESCRIPCION:".toList) = some ("612999888".toList) :=
  ⟨by rfl, by rfl⟩

/-- C8 (amended): the section extractor truncates at the *earliest* start
position among the three cut patterns — whenever `cutIdx` fires at `i`, some
pattern matches at `i` and no pattern matches strictly earlier — where the
second pattern matches only a line holding the word SINIESTROS surrounded by
nothing but whitespace. -/
theorem claim8_earliest_cut :
    ∀ (chunk : List Char) (i : Nat), cutIdx chunk = some i →
      cutMatchAny (chunk.drop i) = true ∧
      ∀ j, cutMatchAny (chunk.drop j) = true → i ≤ j := by
  intro chunk i h
  unfold cutIdx at h
  obtain ⟨hor, hb1, hbc⟩ := minOpt_cases h
  constructor
  · rcases hor with h1 | h1
    · unfold cutMatchAny
      rw [searchPos_holds h1]
      simp
    · obtain ⟨hor2, _, _⟩ := minOpt_cases h1
      rcases hor2 with h2 | h2
      · unfold cutMatchAny
        rw [searchPos_holds h2]
        simp
      · unfold cutMatchAny
        rw [searchPos_holds h2]
        simp
  · intro j hj
    unfold cutMatchAny at hj
    simp only [Bool.or_eq_true] at hj
    rcases hj with (hj | hj) | hj
    · cases hs : searchPos matchCut1 chunk with
      | none => rw [searchPos_none rfl hs j] at hj; nomatch hj
      | some x => exact Nat.le_trans (hb1 x hs) (searchPos_min hs j hj)
    · cases hs : searchPos matchCut2 chunk with
      | none => rw [searchPos_none rfl hs j] at hj; nomatch hj
      | some x =>
        obtain ⟨y, hy, hyx⟩ :=
          minOpt_le_left (b := searchPos matchCut3 chunk) hs
        exact Nat.le_trans (Nat.le_trans (hbc y hy) hyx) (searchPos_min hs j hj)
    · cases hs : searchPos matchCut3 chunk with
      | none => rw [searchPos_none rfl hs j] at hj; nomatch hj
      | some x =>
        obtain ⟨y, hy, hyx⟩ :=
          minOpt_le_right (a := searchPos matchCut2 chunk) hs
        exact Nat.le_trans (Nat.le_trans (hbc y hy) hyx) (searchPos_min hs j hj)

/-- Witness for C8 (amended): a dash delimiter at index 3 is found and is a
match position. -/
theorem claim8_earliest_cut_witness :
    cutMatchAny (("abc\n----------\nrest".toList).drop 3) = true :=
  (claim8_earliest_cut ("abc\n----------\nrest".toList) 3 (by rfl)).1

/-- C9: with the metadata collaborator absent, the classifier accepts every
`+`-prefixed candidate (permissive fallback); with a collaborator present, a
parse exception on malformed input is caught and treated as rejection, as is
an invalid parse result. -/
theorem claim9_collaborator_fallback :
    (∀ rest : List Char, es_movil none ('+' :: rest) = true) ∧
    (∀ (m : PhoneMeta) (rest : List Char),
      m.parse ('+' :: rest) = Except.error () →
      es_movil (some m) ('+' :: rest) = false) ∧
    (∀ (m : PhoneMeta) (rest : List Char) (num : m.PN),
      m.parse ('+' :: rest) = Except.ok num → m.is_valid_number num = false →
      es_movil (some m) ('+' :: rest) = false) := by
  refine ⟨fun rest => rfl, ?_, ?_⟩
  · intro m rest hp
    exact es_movil_plus_parse_error hp
  · intro m rest num hp hv
    exact es_movil_plus_invalid hp hv

/-- Witness for C9: the fallback accepts `+33612345678` with no
collaborator, and the always-raising collaborator leads to rejection. -/
theorem claim9_collaborator_fallback_witness :
    es_movil none ("+33612345678".toList) = true ∧
    es_movil (some rejMeta) ("+33612345678".toList) = false :=
  ⟨claim9_collaborator_fallback.1 ("33612345678".toList),
   claim9_collaborator_fallback.2.1 rejMeta ("33612345678".toList) rfl⟩

/-- C10: every non-null extraction result passed the mobile classifier and
the normalizer: a bare result is exactly 9 digits starting 6 or 7, and a
`+`-prefixed result carries 8 to 15 digits. -/
theorem claim10_result_shape :
    ∀ (meta : Option PhoneMeta) (texto r : List Char),
      extraer_telefono meta texto = some r → c10Shape r = true := by
  intro meta texto r h
  obtain ⟨⟨c, hc⟩, hes⟩ := extraer_telefono_inv h
  exact shape_and_movil (normalizar_shape hc) hes

/-- Witness for C10 on a TELEF-1 document returning `622334455`. -/
theorem claim10_result_shape_witness : c10Shape ("622334455".toList) = true :=
  claim10_result_shape none ("TELEF-1: 622334455".toList) ("622334455".toList)
    (by rfl)
